import Mathlib

/-!
Verification of the heart-disease MLOps pipeline (preprocessing, training
orchestration, model selection, metrics, serving adapter).

The Python sources are shallowly embedded:
 - a raw record (`Row`) maps each configured feature to an optional rational
   value (missing values are `none`);
 - `HeartDiseasePreprocessor` (src/src/data/preprocessing.py) becomes
   `FittedState`/`fit`/`transformP`: `SimpleImputer(strategy=median)` learns
   the median of the non-missing training values, `StandardScaler` the mean
   and (population) variance of the post-imputation column, and
   `SimpleImputer(strategy=most_frequent)` the smallest most-frequent
   non-missing value (numpy sorts candidates ascending and argmax takes the
   first maximum); the scaler divides by sqrt(variance), with a zero variance
   replaced by a unit scale exactly as `StandardScaler` documents;
 - `clean_data`, `select_best_model`, `_calculate_metrics` and the `main`
   orchestration of scripts/train_model.py become the functions below, with
   Python exceptions modelled by `Except PyErr`;
 - the FastAPI `/predict` handler (src/api/app.py) becomes
   `predictEndpoint`, reproducing its try/except control flow: any exception
   raised inside the try block - `HTTPException` included, since FastAPI's
   `HTTPException` derives from `Exception` - is caught by the
   `except Exception` clause and re-raised as a 500.

Floating-point numbers are idealised as exact rationals (reals where the
standard deviation, an irrational square root, is involved).
-/

set_option allowUnsafeReducibility true

attribute [local semireducible] Rat.add Rat.sub Rat.mul Rat.div Rat.inv Rat.neg

/-- Python exceptions relevant to the embedded code. -/
inductive PyErr where
  | valueError (msg : String)
  | keyError (key : String)
  | notFitted (msg : String)
  | trainingError (msg : String)
  deriving DecidableEq, Repr

/-- The numerical feature names, in configuration order
(src/src/data/preprocessing.py, `HeartDiseasePreprocessor.__init__`). -/
def numerical_features : List String :=
  ["age", "trestbps", "chol", "thalach", "oldpeak"]

/-- The categorical feature names, in configuration order. -/
def categorical_features : List String :=
  ["sex", "cp", "fbs", "restecg", "exang", "slope", "ca", "thal"]

/-- A raw record: one optional value per numerical feature (indexed by its
position in `numerical_features`) and per categorical feature (position in
`categorical_features`). `none` is a missing value (NaN). -/
structure Row where
  num : Fin 5 → Option ℚ
  cat : Fin 8 → Option ℚ

instance {ε α : Type} [DecidableEq ε] [DecidableEq α] : DecidableEq (Except ε α) :=
  fun a b =>
    match a, b with
    | .ok x, .ok y =>
      if h : x = y then isTrue (h ▸ rfl)
      else isFalse (fun he => h (Except.ok.inj he))
    | .error x, .error y =>
      if h : x = y then isTrue (h ▸ rfl)
      else isFalse (fun he => h (Except.error.inj he))
    | .ok _, .error _ => isFalse (fun he => Except.noConfusion he)
    | .error _, .ok _ => isFalse (fun he => Except.noConfusion he)

instance : DecidableEq Row := fun a b =>
  decidable_of_iff
    (List.ofFn a.num = List.ofFn b.num ∧ List.ofFn a.cat = List.ofFn b.cat)
    (by
      rw [List.ofFn_inj, List.ofFn_inj]
      constructor
      · rintro ⟨h1, h2⟩
        cases a; cases b; simp_all
      · rintro rfl
        exact ⟨rfl, rfl⟩)

/-- Insert a rational into a list, keeping ascending order. -/
def insertLe (x : ℚ) : List ℚ → List ℚ
  | [] => [x]
  | y :: ys => if x ≤ y then x :: y :: ys else y :: insertLe x ys

/-- Ascending insertion sort, the order `numpy` uses for `median` and
`unique`. -/
def sortQ : List ℚ → List ℚ
  | [] => []
  | x :: xs => insertLe x (sortQ xs)

/-- numpy's median of a list: middle element of the sorted list when the
length is odd, average of the two middle elements when it is even (junk `0`
on the empty list, which `fit` never exposes). -/
def npMedian (l : List ℚ) : ℚ :=
  let s := sortQ l
  let n := s.length
  if n % 2 = 1 then s.getD (n / 2) 0
  else (s.getD (n / 2 - 1) 0 + s.getD (n / 2) 0) / 2

/-- First maximum of `key` over `b :: l`: a later element replaces the
current best only when strictly greater, so ties keep the earlier element. -/
def pickMax (key : α → ℚ) : α → List α → α
  | b, [] => b
  | b, a :: l => pickMax key (if key b < key a then a else b) l

/-- SimpleImputer's `most_frequent` statistic: among the distinct values
(sorted ascending, as `np.unique` returns them) the first one of maximal
multiplicity, i.e. the smallest most-frequent value (junk `0` on the empty
list, which `fit` never exposes). -/
def modeOf (l : List ℚ) : ℚ :=
  match sortQ l.dedup with
  | [] => 0
  | c :: cs => pickMax (fun v => ((l.count v : ℕ) : ℚ)) c cs

/-- The non-missing values of numerical feature `i`, in row order. -/
def numCol (rows : List Row) (i : Fin 5) : List ℚ :=
  rows.filterMap (fun r => r.num i)

/-- The non-missing values of categorical feature `j`, in row order. -/
def catCol (rows : List Row) (j : Fin 8) : List ℚ :=
  rows.filterMap (fun r => r.cat j)

/-- Numerical column `i` after median imputation: each missing entry is
replaced by the median of the non-missing entries, exactly the column that
`StandardScaler` sees downstream of `SimpleImputer` in the numerical
sub-pipeline. -/
def imputedNumCol (rows : List Row) (i : Fin 5) : List ℚ :=
  rows.map (fun r => (r.num i).getD (npMedian (numCol rows i)))

/-- Arithmetic mean of a list of rationals. -/
def meanQ (l : List ℚ) : ℚ := l.sum / l.length

/-- Population variance (`ddof=0`, as `StandardScaler` uses). -/
def varQ (l : List ℚ) : ℚ :=
  (l.map (fun x => (x - meanQ l) ^ 2)).sum / l.length

/-- The learned state of the fitted preprocessing pipeline: per numerical
feature the imputation median and the scaler's mean and variance (the scale
being the square root of the variance), per categorical feature the
imputation mode. -/
structure FittedState where
  median : Fin 5 → ℚ
  mean : Fin 5 → ℚ
  var : Fin 5 → ℚ
  mode : Fin 8 → ℚ

instance : DecidableEq FittedState := fun a b =>
  decidable_of_iff
    (List.ofFn a.median = List.ofFn b.median ∧ List.ofFn a.mean = List.ofFn b.mean ∧
      List.ofFn a.var = List.ofFn b.var ∧ List.ofFn a.mode = List.ofFn b.mode)
    (by
      rw [List.ofFn_inj, List.ofFn_inj, List.ofFn_inj, List.ofFn_inj]
      constructor
      · rintro ⟨h1, h2, h3, h4⟩
        cases a; cases b; simp_all
      · rintro rfl
        exact ⟨rfl, rfl, rfl, rfl⟩)

/-- Fitting the preprocessing pipeline (`HeartDiseasePreprocessor.fit`):
learn each numerical feature's median, post-imputation mean and variance and
each categorical feature's mode from the given rows. `none` models the
degenerate situation in which some feature has no non-missing value at all
(sklearn then cannot produce the full 13-column pipeline). -/
def fit (rows : List Row) : Option FittedState :=
  if (∀ i : Fin 5, numCol rows i ≠ []) ∧ (∀ j : Fin 8, catCol rows j ≠ []) then
    some
      { median := fun i => npMedian (numCol rows i)
        mean := fun i => meanQ (imputedNumCol rows i)
        var := fun i => varQ (imputedNumCol rows i)
        mode := fun j => modeOf (catCol rows j) }
  else none

/-- The scaler's per-feature scale: the standard deviation
`Real.sqrt (var)`, except that a zero variance is replaced by a unit scale
(`StandardScaler` documents that zero-variance features are scaled by 1 so
the data is left as-is). -/
noncomputable def scaleOf (s : FittedState) (i : Fin 5) : ℝ :=
  if s.var i = 0 then 1 else Real.sqrt (s.var i)

/-- A transformed record, in canonical column order: the five scaled
numerical features followed by the eight (imputation-only, unscaled)
categorical features. Every entry is a defined real number - the output
contains no missing values by construction. -/
structure OutRow where
  num : Fin 5 → ℝ
  cat : Fin 8 → ℝ

/-- Transforming one record with a fitted state
(`HeartDiseasePreprocessor.transform`, per row): a missing numerical value is
imputed with the learned median, then scaled as `(value - mean) / scale`; a
missing categorical value is imputed with the learned mode and passed
through unscaled. -/
noncomputable def transformRow (s : FittedState) (r : Row) : OutRow :=
  { num := fun i =>
      ((((r.num i).getD (s.median i) - s.mean i : ℚ) : ℝ)) / scaleOf s i
    cat := fun j => (((r.cat j).getD (s.mode j) : ℚ) : ℝ) }

/-- The preprocessor object: `__init__` builds it with no fitted state;
`fit` populates the state. -/
structure Preprocessor where
  fitted : Option FittedState

/-- A freshly constructed, unfitted preprocessor. -/
def Preprocessor.init : Preprocessor := ⟨none⟩

/-- `HeartDiseasePreprocessor.transform` on a batch: fails with sklearn's
`NotFittedError` when the pipeline has not been fitted, otherwise transforms
each row independently. -/
noncomputable def transformP (p : Preprocessor) (X : List Row) :
    Except PyErr (List OutRow) :=
  match p.fitted with
  | none => .error (.notFitted "This ColumnTransformer instance is not fitted yet")
  | some s => .ok (X.map (transformRow s))

/-- Serialised form of a fitted state (`joblib.dump` of the preprocessor
object): the learned medians, means, variances and modes flattened in a
fixed order. -/
def encodeState (s : FittedState) : List ℚ :=
  (List.ofFn s.median) ++ (List.ofFn s.mean) ++ (List.ofFn s.var) ++ (List.ofFn s.mode)

/-- Deserialise a fitted state from its flattened form. -/
def decodeState (data : List ℚ) : FittedState :=
  { median := fun i => data.getD i 0
    mean := fun i => data.getD (5 + i) 0
    var := fun i => data.getD (10 + i) 0
    mode := fun j => data.getD (15 + j) 0 }

/-- `HeartDiseasePreprocessor.save`: persist the whole object - a tag for
whether it is fitted, followed by the flattened learned state. -/
def savePre (p : Preprocessor) : List ℚ :=
  match p.fitted with
  | none => [0]
  | some s => 1 :: encodeState s

/-- `HeartDiseasePreprocessor.load`: rebuild the preprocessor object from
the persisted artifact. -/
def loadPre (blob : List ℚ) : Preprocessor :=
  match blob with
  | q :: data => if q = 1 then ⟨some (decodeState data)⟩ else ⟨none⟩
  | [] => ⟨none⟩

/-- `clean_data` (src/src/data/preprocessing.py): drop the rows having fewer
than `0.5 * (number of columns)` non-missing values
(`df.dropna(thresh=len(df.columns) * 0.5)`); a generic table row is a list
of `ncols` optional cells. -/
def cleanData (ncols : ℕ) (rows : List (List (Option ℚ))) : List (List (Option ℚ)) :=
  rows.filter (fun r =>
    decide ((ncols : ℚ) * (1 / 2) ≤ ((r.countP (fun v => v.isSome) : ℕ) : ℚ)))

/-- A Python dict of named metric values, as an insertion-ordered
association list with distinct keys. -/
def MDict : Type := List (String × ℚ)

/-- Python dict lookup: `d[k]`, `none` modelling a `KeyError`. -/
def dictGet (k : String) : List (String × ℚ) → Option ℚ
  | [] => none
  | (k', v) :: d => if k' = k then some v else dictGet k d

/-- The metric value of a recorded result, defaulting to `0` (only read
under the hypothesis that the key is present). -/
def valOf (metric : String) (r : String × List (String × ℚ)) : ℚ :=
  (dictGet metric r.2).getD 0

/-- The accumulator loop of Python's `max(items, key=...)`: walk the
remaining items, computing each one's key (a missing metric raises
`KeyError`), and replace the current best only on a strictly greater key, so
the first of several maximal items wins. -/
def maxWithKeyM (metric : String) :
    ((String × List (String × ℚ)) × ℚ) → List (String × List (String × ℚ)) →
      Except PyErr ((String × List (String × ℚ)) × ℚ)
  | acc, [] => .ok acc
  | acc, r :: rs =>
    match dictGet metric r.2 with
    | none => .error (.keyError metric)
    | some v => maxWithKeyM metric (if acc.2 < v then (r, v) else acc) rs

/-- `ModelTrainer.select_best_model` (src/src/models/train.py):
`max(self.results.items(), key=lambda x: x[1][metric])[0]` - `ValueError` on
an empty results dict, `KeyError` as soon as any item lacks the metric,
otherwise the name of the first result attaining the maximal value. -/
def selectBestModel (results : List (String × List (String × ℚ)))
    (metric : String) : Except PyErr String :=
  match results with
  | [] => .error (.valueError "max() arg is an empty sequence")
  | r :: rs =>
    match dictGet metric r.2 with
    | none => .error (.keyError metric)
    | some v => (maxWithKeyM metric (r, v) rs).map (fun b => b.1.1)

/-- Pure counterpart of the `max` loop, used to state its specification. -/
def maxPureK (val : α → ℚ) : α → List α → α
  | b, [] => b
  | b, a :: l => maxPureK val (if val b < val a then a else b) l

/-- accuracy_score: fraction of exact label matches. -/
def accuracyScore (y yp : List Bool) : ℚ :=
  (((y.zip yp).countP (fun t => t.1 == t.2) : ℕ) : ℚ) / y.length

/-- precision_score with `zero_division=0`. -/
def precisionScore (y yp : List Bool) : ℚ :=
  let pairs := y.zip yp
  let pp := pairs.countP (fun t => t.2)
  if pp = 0 then 0 else ((pairs.countP (fun t => t.1 && t.2) : ℕ) : ℚ) / pp

/-- recall_score with `zero_division=0`. -/
def recallScore (y yp : List Bool) : ℚ :=
  let pairs := y.zip yp
  let ap := pairs.countP (fun t => t.1)
  if ap = 0 then 0 else ((pairs.countP (fun t => t.1 && t.2) : ℕ) : ℚ) / ap

/-- f1_score with `zero_division=0`: harmonic mean of precision and recall,
`0` when both vanish. -/
def f1Score (y yp : List Bool) : ℚ :=
  let p := precisionScore y yp
  let r := recallScore y yp
  if p + r = 0 then 0 else 2 * p * r / (p + r)

/-- roc_auc_score on binary labels: the Mann-Whitney statistic - over all
(positive, negative) pairs, count `1` when the positive's probability is
larger, `1/2` on a tie - divided by the number of pairs. Raises sklearn's
`ValueError` when `y_true` holds a single class. -/
def rocAucScore (y : List Bool) (proba : List ℚ) : Except PyErr ℚ :=
  let pairs := y.zip proba
  let pos := (pairs.filter (fun t => t.1)).map (fun t => t.2)
  let neg := (pairs.filter (fun t => !t.1)).map (fun t => t.2)
  if pos = [] ∨ neg = [] then
    .error (.valueError
      "Only one class present in y_true. ROC AUC score is not defined in that case.")
  else
    .ok ((pos.map (fun p =>
          (neg.map (fun q => if q < p then (1 : ℚ) else if p = q then 1 / 2 else 0)).sum)).sum
      / (((pos.length * neg.length : ℕ) : ℚ)))

/-- `ModelTrainer._calculate_metrics` (src/src/models/train.py): build the
metric dict `accuracy, precision, recall, f1_score, roc_auc`. The
`roc_auc_score` call sits inside the dict literal, so its exception aborts
the whole computation and no dict is returned. -/
def calculateMetrics (y yp : List Bool) (proba : List ℚ) :
    Except PyErr (List (String × ℚ)) :=
  match rocAucScore y proba with
  | .error e => .error e
  | .ok auc =>
    .ok [("accuracy", accuracyScore y yp), ("precision", precisionScore y yp),
         ("recall", recallScore y yp), ("f1_score", f1Score y yp), ("roc_auc", auc)]

/-- The model-training portion of `main` (scripts/train_model.py): train
logistic regression, then random forest, record both results, then select
the best by `roc_auc`. The two training computations (sklearn fitting,
MLflow logging) are opaque fallible steps; everything runs inside one `try`
whose handler re-raises, so the first exception aborts the whole run. -/
def mainRun (lr rf : Except PyErr (List (String × ℚ))) :
    Except PyErr (List (String × List (String × ℚ)) × String) := do
  let m1 ← lr
  let m2 ← rf
  let results := [("logistic_regression", m1), ("random_forest", m2)]
  let best ← selectBestModel results "roc_auc"
  pure (results, best)

/-- The risk banding of the `/predict` handler (src/api/app.py):
`probability < 0.3` is Low, `probability < 0.7` Medium, otherwise High. -/
def riskLevelOf (p : ℚ) : String :=
  if p < 3 / 10 then "Low" else if p < 7 / 10 then "Medium" else "High"

/-- A validated prediction request: the thirteen numeric fields of
`HeartDiseaseInput` (domains already enforced by pydantic before the handler
runs). -/
structure HeartDiseaseInput where
  age : ℚ
  sex : ℚ
  cp : ℚ
  trestbps : ℚ
  chol : ℚ
  fbs : ℚ
  restecg : ℚ
  thalach : ℚ
  exang : ℚ
  oldpeak : ℚ
  slope : ℚ
  ca : ℚ
  thal : ℚ

/-- The one-row DataFrame the handler builds from a request: every field is
present (pydantic guarantees no missing values). -/
def inputToRow (x : HeartDiseaseInput) : Row :=
  { num := fun i =>
      some (match i with
        | 0 => x.age | 1 => x.trestbps | 2 => x.chol | 3 => x.thalach | 4 => x.oldpeak)
    cat := fun j =>
      some (match j with
        | 0 => x.sex | 1 => x.cp | 2 => x.fbs | 3 => x.restecg
        | 4 => x.exang | 5 => x.slope | 6 => x.ca | 7 => x.thal) }

/-- The loaded model artifact as the handler uses it: `predict` on the
preprocessed row and `predict_proba`'s positive-class column. -/
structure ServingModel where
  predict : OutRow → ℤ
  predictProba : OutRow → ℚ

/-- The body of the handler's `/predict` response. -/
structure PredictionResponse where
  prediction : ℤ
  probability : ℚ
  risk_level : String
  message : String

/-- An exception in flight inside the handler's `try` block: either a
FastAPI `HTTPException` (status code and detail) or another Python
exception, identified by its message. `str` of an `HTTPException` is
`"{status}: {detail}"`. -/
inductive ServeErr where
  | http (code : ℕ) (detail : String)
  | py (msg : String)

/-- The string Python's `str(e)` yields for an in-flight exception. -/
def ServeErr.str : ServeErr → String
  | .http c d => toString c ++ ": " ++ d
  | .py m => m

/-- The `/predict` handler (src/api/app.py): inside `try`, a missing model
or preprocessor raises `HTTPException(503)`; otherwise the request row is
preprocessed, scored, and banded. The surrounding `except Exception` clause
catches every exception of the block - including the `HTTPException(503)`
itself, since `HTTPException` derives from `Exception` - and re-raises
`HTTPException(500, "Prediction failed: " + str(e))`. The result is the
(status code, detail) of the HTTP error, or the successful response. -/
noncomputable def predictEndpoint (model : Option ServingModel)
    (pre : Option Preprocessor) (x : HeartDiseaseInput) :
    Except (ℕ × String) PredictionResponse :=
  let body : Except ServeErr PredictionResponse :=
    match model, pre with
    | some m, some p => do
      let outs ← (transformP p [inputToRow x]).mapError
        (fun _ => ServeErr.py "This ColumnTransformer instance is not fitted yet")
      let o ← match outs.head? with
        | some o => Except.ok o
        | none => Except.error (ServeErr.py "index 0 is out of bounds")
      let pred := m.predict o
      let prob := m.predictProba o
      Except.ok
        { prediction := pred
          probability := prob
          risk_level := riskLevelOf prob
          message :=
            if pred = 1 then "Heart disease detected" else "Heart disease not detected" }
    | _, _ => Except.error (ServeErr.http 503 "Model not available")
  match body with
  | .ok r => .ok r
  | .error e => .error (500, "Prediction failed: " ++ e.str)

/-- The training partition of an abstract train/test assignment (row index
to membership in the held-out test set), standing for the deterministic
shuffle `train_test_split(..., random_state=42)` performs. -/
def trainPartition (isTest : ℕ → Bool) (X : List Row) : List Row :=
  (X.enum.filter (fun p => !(isTest p.1))).map (fun p => p.2)

/-- The held-out test partition of an abstract train/test assignment. -/
def testPartition (isTest : ℕ → Bool) (X : List Row) : List Row :=
  (X.enum.filter (fun p => isTest p.1)).map (fun p => p.2)

/-- The fitted preprocessing state produced by the orchestration
(scripts/train_model.py, steps 4 and 5 of `main`): the preprocessor is
fitted on the full feature matrix `X` by `fit_transform(X)` and only
afterwards is `train_test_split` applied, so the learned statistics are a
function of every row, test rows included. -/
def mainFittedState (X : List Row) : Option FittedState := fit X

/-- A typical valid prediction request (the documented example payload). -/
def exampleInput : HeartDiseaseInput :=
  { age := 63, sex := 1, cp := 3, trestbps := 145, chol := 233, fbs := 1,
    restecg := 0, thalach := 150, exang := 0, oldpeak := 23 / 10, slope := 0,
    ca := 0, thal := 1 }

/-- C9: the risk banding is a pure function of the probability with exactly
the stated boundaries: `p < 0.3` yields Low, `0.3 <= p < 0.7` yields Medium
and `p >= 0.7` yields High. -/
theorem riskBanding_spec (p : ℚ) :
    (p < 3 / 10 → riskLevelOf p = "Low") ∧
    (3 / 10 ≤ p → p < 7 / 10 → riskLevelOf p = "Medium") ∧
    (7 / 10 ≤ p → riskLevelOf p = "High") := by
  refine ⟨fun h => by simp [riskLevelOf, h], fun h1 h2 => ?_, fun h => ?_⟩
  · rw [riskLevelOf, if_neg (not_lt.mpr h1), if_pos h2]
  · rw [riskLevelOf, if_neg (not_lt.mpr (by linarith)),
      if_neg (not_lt.mpr (by linarith))]

/-- C9 witness: the four boundary probes 0.29, 0.30, 0.69 and 0.70. -/
theorem riskBanding_spec_witness :
    riskLevelOf (29 / 100) = "Low" ∧ riskLevelOf (30 / 100) = "Medium" ∧
    riskLevelOf (69 / 100) = "Medium" ∧ riskLevelOf (70 / 100) = "High" :=
  ⟨(riskBanding_spec (29 / 100)).1 (by norm_num),
   (riskBanding_spec (30 / 100)).2.1 (by norm_num) (by norm_num),
   (riskBanding_spec (69 / 100)).2.1 (by norm_num) (by norm_num),
   (riskBanding_spec (70 / 100)).2.2 (by norm_num)⟩

/-- C10: `clean_data` retains exactly the rows with at least half of the
table's columns non-missing (the rational threshold `0.5 * ncols` used by
the code is equivalent to the integer condition `ncols <= 2 * non-missing`),
and it is a sublist of the input: retained rows are unchanged - any
remaining missing values included - and keep their relative order. -/
theorem cleanData_spec (ncols : ℕ) (rows : List (List (Option ℚ))) :
    cleanData ncols rows =
      rows.filter (fun r => decide (ncols ≤ 2 * r.countP (fun v => v.isSome))) ∧
    (cleanData ncols rows).Sublist rows := by
  constructor
  · refine List.filter_congr ?_
    intro r _
    rw [decide_eq_decide, ← Nat.cast_le (α := ℚ)]
    push_cast
    constructor <;> intro h <;> linarith
  · exact List.filter_sublist _

/-- C2 counterexample: when logistic-regression training fails, the whole
run fails with that error and the random-forest model - whose training
would have succeeded - is never trained nor recorded, contradicting the
claimed isolation of per-model failures. -/
theorem mainRun_abort_counterexample :
    mainRun (Except.error (PyErr.trainingError "numerical divergence"))
        (Except.ok [("roc_auc", (9 : ℚ) / 10)]) =
      Except.error (PyErr.trainingError "numerical divergence") ∧
    (Except.ok [("roc_auc", (9 : ℚ) / 10)] :
      Except PyErr (List (String × ℚ))).isOk = true :=
  ⟨rfl, rfl⟩

/-- C2 amended: the orchestrator's single try/except re-raises, so the first
model-training failure aborts the entire run with that error - no later
model is trained, no results survive - and a failure of the second model
likewise fails the run even though the first succeeded. -/
theorem mainRun_failure_propagates (e : PyErr) :
    (∀ rf, mainRun (Except.error e) rf = Except.error e) ∧
    (∀ m, mainRun (Except.ok m) (Except.error e) = Except.error e) :=
  ⟨fun _ => rfl, fun _ => rfl⟩

/-- C8: a valid request arriving while the model and preprocessor are not
loaded is answered with HTTP 500 (the generic failure), not 503: the
handler's `except Exception` clause catches the `HTTPException(503)` it
itself raised - FastAPI's `HTTPException` derives from `Exception` - and
re-raises it as `HTTPException(500, "Prediction failed: 503: Model not
available")`. -/
theorem predict_unavailable_is_500 :
    predictEndpoint none none exampleInput =
      Except.error (500, "Prediction failed: 503: Model not available") :=
  rfl

/-- C4 counterexample: with single-class labels `[1, 1]` the metric
computation returns no dict at all - the `roc_auc_score` exception aborts
the whole `_calculate_metrics` call - even though the accuracy of the same
inputs is perfectly computable (it is 1/2 here), contradicting the claim
that the other four metrics are still returned. -/
theorem calculateMetrics_singleClass_counterexample :
    calculateMetrics [true, true] [true, false] [6 / 10, 4 / 10] =
      Except.error (PyErr.valueError
        "Only one class present in y_true. ROC AUC score is not defined in that case.") ∧
    accuracyScore [true, true] [true, false] = 1 / 2 :=
  ⟨rfl, by norm_num [accuracyScore]⟩

/-- Every first component of a zip pair comes from the first list. -/
theorem zip_fst_eq {y : List Bool} {proba : List ℚ} {c : Bool}
    (h : ∀ b ∈ y, b = c) : ∀ t ∈ y.zip proba, t.1 = c :=
  fun t ht => h t.1 (List.of_mem_zip ht).1

/-- roc_auc_score fails with the degenerate-labels ValueError whenever
`y_true` holds a single class. -/
theorem rocAucScore_degenerate (y : List Bool) (proba : List ℚ)
    (h : (∀ b ∈ y, b = true) ∨ (∀ b ∈ y, b = false)) :
    rocAucScore y proba =
      Except.error (PyErr.valueError
        "Only one class present in y_true. ROC AUC score is not defined in that case.") := by
  rw [rocAucScore]
  rcases h with h | h
  · have hneg : (y.zip proba).filter (fun t => !t.1) = [] :=
      List.filter_eq_nil_iff.mpr (fun t ht => by
        have := zip_fst_eq h t ht; simp [this])
    rw [if_pos (Or.inr (by rw [hneg]; rfl))]
  · have hpos : (y.zip proba).filter (fun t => t.1) = [] :=
      List.filter_eq_nil_iff.mpr (fun t ht => by
        have := zip_fst_eq h t ht; simp [this])
    rw [if_pos (Or.inl (by rw [hpos]; rfl))]

/-- C4 amended: when `y_true` contains only one class, the roc_auc failure
is fatal to the entire metric computation - `_calculate_metrics` raises and
returns nothing, so accuracy, precision, recall and f1 are not returned
either. -/
theorem calculateMetrics_degenerate (y yp : List Bool) (proba : List ℚ)
    (h : (∀ b ∈ y, b = true) ∨ (∀ b ∈ y, b = false)) :
    calculateMetrics y yp proba =
      Except.error (PyErr.valueError
        "Only one class present in y_true. ROC AUC score is not defined in that case.") := by
  rw [calculateMetrics, rocAucScore_degenerate y proba h]

/-- C4 witness: the amended theorem applied to the concrete all-positive
labels `[1, 1]`. -/
theorem calculateMetrics_degenerate_witness :
    ((∀ b ∈ [true, true], b = true) ∨ (∀ b ∈ [true, true], b = false)) ∧
    calculateMetrics [true, true] [false, false] [1 / 2, 1 / 2] =
      Except.error (PyErr.valueError
        "Only one class present in y_true. ROC AUC score is not defined in that case.") :=
  ⟨Or.inl (by decide),
   calculateMetrics_degenerate [true, true] [false, false] [1 / 2, 1 / 2]
     (Or.inl (by decide))⟩

/-- C5 counterexample: with two recorded results where only the second
carries `roc_auc`, selection fails with `KeyError` even though a recorded
result does carry the named metric, contradicting the claimed
"fails if and only if the metric was never computed for any result". -/
theorem selectBest_missing_metric_counterexample :
    selectBestModel
        [("A", [("accuracy", (1 : ℚ) / 2)]), ("B", [("roc_auc", (9 : ℚ) / 10)])]
        "roc_auc" =
      Except.error (PyErr.keyError "roc_auc") ∧
    (dictGet "roc_auc" [("roc_auc", (9 : ℚ) / 10)]).isSome = true :=
  ⟨rfl, rfl⟩

/-- When every remaining item carries the metric, the `max` loop cannot
raise and computes its pure counterpart together with that item's value. -/
theorem maxWithKeyM_ok (metric : String) (l : List (String × List (String × ℚ)))
    (hall : ∀ r ∈ l, (dictGet metric r.2).isSome) (b : String × List (String × ℚ)) :
    maxWithKeyM metric (b, valOf metric b) l =
      Except.ok (maxPureK (valOf metric) b l,
        valOf metric (maxPureK (valOf metric) b l)) := by
  induction l generalizing b with
  | nil => rfl
  | cons r rs ih =>
    obtain ⟨v, hv⟩ := Option.isSome_iff_exists.mp (hall r (List.mem_cons_self r rs))
    have hval : valOf metric r = v := by simp [valOf, hv]
    have hrest : ∀ x ∈ rs, (dictGet metric x.2).isSome :=
      fun x hx => hall x (List.mem_cons_of_mem r hx)
    simp only [maxWithKeyM, hv]
    rw [← hval]
    by_cases hlt : valOf metric b < valOf metric r
    · rw [if_pos hlt]
      have hR : maxPureK (valOf metric) b (r :: rs) = maxPureK (valOf metric) r rs := by
        simp only [maxPureK, if_pos hlt]
      rw [hR]
      exact ih hrest r
    · rw [if_neg hlt]
      have hR : maxPureK (valOf metric) b (r :: rs) = maxPureK (valOf metric) b rs := by
        simp only [maxPureK, if_neg hlt]
      rw [hR]
      exact ih hrest b

/-- If the `max` loop succeeded, every item it walked carried the metric. -/
theorem maxWithKeyM_isOk_all (metric : String) (l : List (String × List (String × ℚ))) :
    ∀ acc, (maxWithKeyM metric acc l).isOk = true →
      ∀ r ∈ l, (dictGet metric r.2).isSome := by
  induction l with
  | nil => intro acc _ r hr; exact absurd hr (List.not_mem_nil r)
  | cons a l' ih =>
    intro acc h r hr
    cases hd : dictGet metric a.2 with
    | none =>
      have hred : maxWithKeyM metric acc (a :: l') =
          Except.error (PyErr.keyError metric) := by
        simp only [maxWithKeyM, hd]
      rw [hred] at h
      exact absurd h (by simp [Except.isOk, Except.toBool])
    | some v =>
      have hred : maxWithKeyM metric acc (a :: l') =
          maxWithKeyM metric (if acc.2 < v then (a, v) else acc) l' := by
        simp only [maxWithKeyM, hd]
      rw [hred] at h
      rcases List.mem_cons.mp hr with rfl | hr'
      · rw [hd]; rfl
      · exact ih _ h r hr'

/-- Specification of the pure first-maximum fold: either the seed already
dominates the whole list, or the result is an element of the list, strictly
greater than the seed and than everything before it, and at least as great
as everything in the list. -/
theorem maxPureK_spec (val : α → ℚ) (l : List α) (b : α) :
    (maxPureK val b l = b ∧ ∀ x ∈ l, val x ≤ val b) ∨
    (∃ l₁ x l₂, l = l₁ ++ x :: l₂ ∧ maxPureK val b l = x ∧ val b < val x ∧
      (∀ y ∈ l₁, val y < val x) ∧ (∀ y ∈ l, val y ≤ val x)) := by
  induction l generalizing b with
  | nil =>
    exact Or.inl ⟨rfl, fun x hx => absurd hx (List.not_mem_nil x)⟩
  | cons a l' ih =>
    by_cases hba : val b < val a
    · have hstep : maxPureK val b (a :: l') = maxPureK val a l' := by
        simp only [maxPureK, if_pos hba]
      rcases ih a with ⟨hres, hmax⟩ | ⟨l₁, x, l₂, hsplit, hres, hlt, hstrict, hmax⟩
      · refine Or.inr ⟨[], a, l', rfl, by rw [hstep, hres], hba, ?_, ?_⟩
        · intro y hy; exact absurd hy (List.not_mem_nil y)
        · intro y hy
          rcases List.mem_cons.mp hy with rfl | hy'
          · exact le_refl _
          · exact hmax y hy'
      · refine Or.inr ⟨a :: l₁, x, l₂, by rw [hsplit]; rfl, by rw [hstep, hres],
          lt_trans hba hlt, ?_, ?_⟩
        · intro y hy
          rcases List.mem_cons.mp hy with rfl | hy'
          · exact hlt
          · exact hstrict y hy'
        · intro y hy
          rcases List.mem_cons.mp hy with rfl | hy'
          · exact le_of_lt hlt
          · exact hmax y hy'
    · have hstep : maxPureK val b (a :: l') = maxPureK val b l' := by
        simp only [maxPureK, if_neg hba]
      rcases ih b with ⟨hres, hmax⟩ | ⟨l₁, x, l₂, hsplit, hres, hlt, hstrict, hmax⟩
      · refine Or.inl ⟨by rw [hstep, hres], ?_⟩
        intro y hy
        rcases List.mem_cons.mp hy with rfl | hy'
        · exact le_of_not_lt hba
        · exact hmax y hy'
      · refine Or.inr ⟨a :: l₁, x, l₂, by rw [hsplit]; rfl, by rw [hstep, hres], hlt, ?_, ?_⟩
        · intro y hy
          rcases List.mem_cons.mp hy with rfl | hy'
          · exact lt_of_le_of_lt (le_of_not_lt hba) hlt
          · exact hstrict y hy'
        · intro y hy
          rcases List.mem_cons.mp hy with rfl | hy'
          · exact le_of_lt (lt_of_le_of_lt (le_of_not_lt hba) hlt)
          · exact hmax y hy'

/-- C3: over a non-empty results collection in which every result carries
the named metric, `select_best_model` succeeds and returns the name of a
result whose metric value is maximal, every earlier result having a strictly
smaller value (first-encountered tie-breaking in recording order). -/
theorem selectBest_spec (results : List (String × List (String × ℚ)))
    (metric : String) (hne : results ≠ [])
    (hall : ∀ r ∈ results, (dictGet metric r.2).isSome) :
    ∃ pre best post, results = pre ++ best :: post ∧
      selectBestModel results metric = Except.ok best.1 ∧
      (∀ y ∈ results, valOf metric y ≤ valOf metric best) ∧
      (∀ y ∈ pre, valOf metric y < valOf metric best) := by
  rcases results with _ | ⟨r, rs⟩
  · exact absurd rfl hne
  obtain ⟨v, hv⟩ := Option.isSome_iff_exists.mp (hall r (List.mem_cons_self r rs))
  have hval : valOf metric r = v := by simp [valOf, hv]
  have hrest : ∀ x ∈ rs, (dictGet metric x.2).isSome :=
    fun x hx => hall x (List.mem_cons_of_mem r hx)
  have hok := maxWithKeyM_ok metric rs hrest r
  have hsel : selectBestModel (r :: rs) metric =
      Except.ok (maxPureK (valOf metric) r rs).1 := by
    simp only [selectBestModel, hv]
    rw [← hval, hok]
    rfl
  rcases maxPureK_spec (valOf metric) rs r with
    ⟨hres, hmax⟩ | ⟨l₁, x, l₂, hsplit, hres, hlt, hstrict, hmax⟩
  · refine ⟨[], r, rs, rfl, by rw [hsel, hres], ?_, ?_⟩
    · intro y hy
      rcases List.mem_cons.mp hy with rfl | hy'
      · exact le_refl _
      · exact hmax y hy'
    · intro y hy; exact absurd hy (List.not_mem_nil y)
  · refine ⟨r :: l₁, x, l₂, by rw [hsplit]; rfl, by rw [hsel, hres], ?_, ?_⟩
    · intro y hy
      rcases List.mem_cons.mp hy with rfl | hy'
      · exact le_of_lt hlt
      · exact hmax y hy'
    · intro y hy
      rcases List.mem_cons.mp hy with rfl | hy'
      · exact hlt
      · exact hstrict y hy'

/-- C3 witness: the spec probe with recorded roc_auc values A: 0.81 and
B: 0.89 - selection returns B. -/
theorem selectBest_spec_witness :
    (∃ pre best post,
        [("A", [("roc_auc", (81 : ℚ) / 100)]), ("B", [("roc_auc", (89 : ℚ) / 100)])] =
          pre ++ best :: post ∧
        selectBestModel
            [("A", [("roc_auc", (81 : ℚ) / 100)]), ("B", [("roc_auc", (89 : ℚ) / 100)])]
            "roc_auc" = Except.ok best.1 ∧
        (∀ y ∈ [("A", [("roc_auc", (81 : ℚ) / 100)]),
                ("B", [("roc_auc", (89 : ℚ) / 100)])],
          valOf "roc_auc" y ≤ valOf "roc_auc" best) ∧
        (∀ y ∈ pre, valOf "roc_auc" y < valOf "roc_auc" best)) ∧
    selectBestModel
        [("A", [("roc_auc", (81 : ℚ) / 100)]), ("B", [("roc_auc", (89 : ℚ) / 100)])]
        "roc_auc" = Except.ok "B" :=
  ⟨selectBest_spec _ _ (List.cons_ne_nil _ _) (by decide), by decide⟩

/-- C5 amended: selection on an empty results collection fails (Python's
`max` raises ValueError); on a non-empty collection it succeeds if and only
if every recorded result carries the named metric - a single result lacking
it makes the key function raise `KeyError`, even when another result does
carry the metric. -/
theorem selectBest_error_conditions (metric : String) :
    selectBestModel [] metric =
      Except.error (PyErr.valueError "max() arg is an empty sequence") ∧
    ∀ results : List (String × List (String × ℚ)), results ≠ [] →
      ((selectBestModel results metric).isOk = true ↔
        ∀ r ∈ results, (dictGet metric r.2).isSome) := by
  refine ⟨rfl, ?_⟩
  intro results hne
  rcases results with _ | ⟨a, rs⟩
  · exact absurd rfl hne
  constructor
  · intro h r hr
    cases hd : dictGet metric a.2 with
    | none =>
      have hred : selectBestModel (a :: rs) metric =
          Except.error (PyErr.keyError metric) := by
        simp only [selectBestModel, hd]
      rw [hred] at h
      exact absurd h (by simp [Except.isOk, Except.toBool])
    | some v =>
      have hred : selectBestModel (a :: rs) metric =
          (maxWithKeyM metric (a, v) rs).map (fun b => b.1.1) := by
        simp only [selectBestModel, hd]
      rw [hred] at h
      have hok : (maxWithKeyM metric (a, v) rs).isOk = true := by
        cases hmm : maxWithKeyM metric (a, v) rs with
        | error e => rw [hmm] at h; exact absurd h (by simp [Except.map, Except.isOk, Except.toBool])
        | ok x => rfl
      rcases List.mem_cons.mp hr with rfl | hr'
      · rw [hd]; rfl
      · exact maxWithKeyM_isOk_all metric rs (a, v) hok r hr'
  · intro hall
    obtain ⟨v, hv⟩ := Option.isSome_iff_exists.mp (hall a (List.mem_cons_self a rs))
    have hval : valOf metric a = v := by simp [valOf, hv]
    have hrest : ∀ x ∈ rs, (dictGet metric x.2).isSome :=
      fun x hx => hall x (List.mem_cons_of_mem a hx)
    have hok := maxWithKeyM_ok metric rs hrest a
    have hred : selectBestModel (a :: rs) metric =
        Except.ok (maxPureK (valOf metric) a rs).1 := by
      simp only [selectBestModel, hv]
      rw [← hval, hok]
      rfl
    rw [hred]
    rfl

/-- C5 witness: the non-empty case of the amended theorem at a concrete
single-result collection carrying the metric. -/
theorem selectBest_error_conditions_witness :
    ([("A", [("roc_auc", (1 : ℚ) / 2)])] ≠
        ([] : List (String × List (String × ℚ)))) ∧
    ((selectBestModel [("A", [("roc_auc", (1 : ℚ) / 2)])] "roc_auc").isOk = true ↔
      ∀ r ∈ [("A", [("roc_auc", (1 : ℚ) / 2)])], (dictGet "roc_auc" r.2).isSome) :=
  ⟨List.cons_ne_nil _ _,
   (selectBest_error_conditions "roc_auc").2 _ (List.cons_ne_nil _ _)⟩

/-- Decoding inverts encoding of a fitted state. -/
theorem decodeState_encodeState (s : FittedState) :
    decodeState (encodeState s) = s := by
  cases s with
  | mk m1 m2 m3 m4 =>
    simp only [decodeState, encodeState]
    congr 1 <;> funext i <;> fin_cases i <;> rfl

/-- Loading a saved preprocessor artifact reproduces the preprocessor. -/
theorem loadPre_savePre (p : Preprocessor) : loadPre (savePre p) = p := by
  cases p with
  | mk f =>
    cases f with
    | none => rfl
    | some s => simp [savePre, loadPre, decodeState_encodeState]

/-- C6: the save/load round-trip law - for every preprocessor and every
input batch, the loaded copy of a saved preprocessor transforms the batch
exactly as the original does (element-wise identical output; an unfitted
preprocessor fails identically on both sides). -/
theorem save_load_roundtrip (p : Preprocessor) (X : List Row) :
    transformP (loadPre (savePre p)) X = transformP p X := by
  rw [loadPre_savePre]

/-- Ordered insertion grows the length by one. -/
theorem length_insertLe (x : ℚ) (l : List ℚ) :
    (insertLe x l).length = l.length + 1 := by
  induction l with
  | nil => rfl
  | cons y ys ih =>
    rw [insertLe]
    by_cases h : x ≤ y
    · rw [if_pos h]
      rfl
    · rw [if_neg h]
      simp [List.length_cons, ih]

/-- Membership in an ordered insertion. -/
theorem mem_insertLe {z x : ℚ} {l : List ℚ} :
    z ∈ insertLe x l ↔ z = x ∨ z ∈ l := by
  induction l with
  | nil => simp [insertLe]
  | cons y ys ih =>
    rw [insertLe]
    by_cases h : x ≤ y
    · rw [if_pos h]
      simp [List.mem_cons]
    · rw [if_neg h]
      simp [List.mem_cons, ih]
      tauto

/-- Sorting preserves the length. -/
theorem length_sortQ (l : List ℚ) : (sortQ l).length = l.length := by
  induction l with
  | nil => rfl
  | cons x xs ih => simp [sortQ, length_insertLe, ih]

/-- Sorting preserves membership. -/
theorem mem_sortQ {z : ℚ} {l : List ℚ} : z ∈ sortQ l ↔ z ∈ l := by
  induction l with
  | nil => simp [sortQ]
  | cons x xs ih => simp [sortQ, mem_insertLe, ih]

/-- The median of a non-empty constant list is that constant. -/
theorem npMedian_const {l : List ℚ} {a : ℚ} (hne : l ≠ []) (h : ∀ x ∈ l, x = a) :
    npMedian l = a := by
  have hlen : (sortQ l).length = l.length := length_sortQ l
  have hpos : 0 < l.length := List.length_pos.mpr hne
  have hmem : ∀ x ∈ sortQ l, x = a := fun x hx => h x (mem_sortQ.mp hx)
  simp only [npMedian]
  by_cases hodd : (sortQ l).length % 2 = 1
  · rw [if_pos hodd]
    have hlt : (sortQ l).length / 2 < (sortQ l).length := by omega
    rw [List.getD_eq_get _ _ hlt]
    exact hmem _ (List.get_mem _ _ _)
  · rw [if_neg hodd]
    have hlt1 : (sortQ l).length / 2 - 1 < (sortQ l).length := by omega
    have hlt2 : (sortQ l).length / 2 < (sortQ l).length := by omega
    rw [List.getD_eq_get _ _ hlt1, List.getD_eq_get _ _ hlt2,
      hmem _ (List.get_mem _ _ _), hmem _ (List.get_mem _ _ _)]
    ring

/-- A sum of squared deviations is non-negative. -/
theorem sum_sq_nonneg (l : List ℚ) (m : ℚ) :
    0 ≤ (l.map (fun x => (x - m) ^ 2)).sum := by
  induction l with
  | nil => simp
  | cons x xs ih =>
    simp only [List.map_cons, List.sum_cons]
    have := sq_nonneg (x - m)
    linarith

/-- A vanishing sum of squared deviations forces every element to equal the
center. -/
theorem sum_sq_zero {l : List ℚ} {m : ℚ}
    (h : (l.map (fun x => (x - m) ^ 2)).sum = 0) : ∀ x ∈ l, x = m := by
  induction l with
  | nil => intro x hx; exact absurd hx (List.not_mem_nil x)
  | cons y ys ih =>
    simp only [List.map_cons, List.sum_cons] at h
    have h1 : 0 ≤ (y - m) ^ 2 := sq_nonneg _
    have h2 : 0 ≤ (ys.map (fun x => (x - m) ^ 2)).sum := sum_sq_nonneg ys m
    have hy : (y - m) ^ 2 = 0 := by linarith
    have hrest : (ys.map (fun x => (x - m) ^ 2)).sum = 0 := by linarith
    intro x hx
    rcases List.mem_cons.mp hx with rfl | hx'
    · exact sub_eq_zero.mp ((pow_eq_zero_iff (by norm_num)).mp hy)
    · exact ih hrest x hx'

/-- A column with zero (population) variance is constant at its mean. -/
theorem varQ_zero_all_mean {l : List ℚ} (hne : l ≠ []) (h : varQ l = 0) :
    ∀ x ∈ l, x = meanQ l := by
  have hlen : ((l.length : ℕ) : ℚ) ≠ 0 :=
    Nat.cast_ne_zero.mpr (List.length_pos.mpr hne).ne'
  rw [varQ, div_eq_zero_iff] at h
  rcases h with h | h
  · exact sum_sq_zero h
  · exact absurd h hlen

/-- When no entry is missing, the imputed column is the raw column. -/
theorem map_getD_eq_filterMap (l : List Row) (g : Row → Option ℚ) (m : ℚ)
    (h : ∀ r ∈ l, (g r).isSome) :
    l.map (fun r => (g r).getD m) = l.filterMap g := by
  induction l with
  | nil => rfl
  | cons r rs ih =>
    obtain ⟨v, hv⟩ := Option.isSome_iff_exists.mp (h r (List.mem_cons_self r rs))
    simp only [List.map_cons, List.filterMap_cons, hv, Option.getD_some]
    rw [ih (fun x hx => h x (List.mem_cons_of_mem r hx))]

/-- Unfolding a successful fit into its learned statistics. -/
theorem fit_fields {rows : List Row} {s : FittedState} (h : fit rows = some s) :
    (∀ i : Fin 5, numCol rows i ≠ []) ∧
    s.median = (fun i => npMedian (numCol rows i)) ∧
    s.mean = (fun i => meanQ (imputedNumCol rows i)) ∧
    s.var = (fun i => varQ (imputedNumCol rows i)) := by
  rw [fit] at h
  by_cases hc : (∀ i : Fin 5, numCol rows i ≠ []) ∧ (∀ j : Fin 8, catCol rows j ≠ [])
  · rw [if_pos hc] at h
    obtain rfl := (Option.some.inj h).symm
    exact ⟨hc.1, rfl, rfl, rfl⟩
  · rw [if_neg hc] at h
    exact absurd h (by simp)

/-- For a state learned by fit, a zero variance forces the learned median to
coincide with the learned mean: the post-imputation column is constant at
its mean, and the median - either present in the column as an imputed value
or the median of the constant raw column - equals that constant. -/
theorem fit_var_zero {rows : List Row} {s : FittedState} (hfit : fit rows = some s)
    (i : Fin 5) (hv : s.var i = 0) : s.median i = s.mean i := by
  obtain ⟨hnc, hmed, hmean, hvar⟩ := fit_fields hfit
  have hmedi : s.median i = npMedian (numCol rows i) := by rw [hmed]
  have hmeani : s.mean i = meanQ (imputedNumCol rows i) := by rw [hmean]
  have hvari : s.var i = varQ (imputedNumCol rows i) := by rw [hvar]
  rw [hvari] at hv
  have hrows : rows ≠ [] := by
    intro h0
    exact hnc i (by rw [h0]; rfl)
  have himp : imputedNumCol rows i ≠ [] := by
    intro h0
    rw [imputedNumCol] at h0
    exact hrows (List.map_eq_nil.mp h0)
  have hall : ∀ x ∈ imputedNumCol rows i, x = meanQ (imputedNumCol rows i) :=
    varQ_zero_all_mean himp hv
  rw [hmedi, hmeani]
  by_cases hmiss : ∃ r ∈ rows, r.num i = none
  · obtain ⟨r, hr, hnone⟩ := hmiss
    have hmem : npMedian (numCol rows i) ∈ imputedNumCol rows i := by
      rw [imputedNumCol]
      exact List.mem_map.mpr ⟨r, hr, by rw [hnone]; rfl⟩
    exact hall _ hmem
  · push_neg at hmiss
    have hsome : ∀ r ∈ rows, (r.num i).isSome :=
      fun r hr => Option.isSome_iff_ne_none.mpr (hmiss r hr)
    have heq : imputedNumCol rows i = numCol rows i :=
      map_getD_eq_filterMap rows (fun r => r.num i) _ hsome
    refine npMedian_const (hnc i) ?_
    intro x hx
    exact hall x (by rw [heq]; exact hx)

/-- C7: for a pipeline fitted by `fit`, `transform` of any batch succeeds
and yields one fully-defined output row per input row - no missing values
survive. In any row of the batch, each missing numerical value is imputed
with the learned median and then scaled as `(median - mean) / std`, which is
`0` when the learned standard deviation is zero (a zero-variance fit forces
median = mean, and the scaler divides by the unit replacement scale); each
missing categorical value becomes the learned mode, passed through
unscaled. -/
theorem transform_imputes_missing (rows : List Row) (s : FittedState)
    (hfit : fit rows = some s) (X : List Row) (r : Row) (_hrX : r ∈ X) :
    transformP ⟨some s⟩ X = Except.ok (X.map (transformRow s)) ∧
    (∀ i : Fin 5, r.num i = none →
      (transformRow s r).num i =
        if s.var i = 0 then 0
        else (((s.median i - s.mean i : ℚ) : ℝ)) / Real.sqrt (s.var i)) ∧
    (∀ j : Fin 8, r.cat j = none →
      (transformRow s r).cat j = ((s.mode j : ℚ) : ℝ)) := by
  refine ⟨rfl, fun i hi => ?_, fun j hj => ?_⟩
  · simp only [transformRow, hi, Option.getD_none, scaleOf]
    by_cases hvar : s.var i = 0
    · rw [if_pos hvar, if_pos hvar, fit_var_zero hfit i hvar]
      simp
    · rw [if_neg hvar, if_neg hvar]
  · simp [transformRow, hj]

/-- First training row of the concrete fit: all numericals 0, all
categoricals 1. -/
def rowW0 : Row := { num := fun _ => some 0, cat := fun _ => some 1 }

/-- Second training row: numerical feature 0 is 2, the rest as before. -/
def rowW1 : Row :=
  { num := fun i => if i = 0 then some 2 else some 0, cat := fun _ => some 1 }

/-- The two-row training set of the concrete fit. -/
def fitRowsW : List Row := [rowW0, rowW1]

/-- The state `fit` learns on `fitRowsW`: median/mean/variance 1 on feature
0 (values 0 and 2), zero statistics elsewhere, all modes 1. -/
def stateW : FittedState :=
  { median := fun i => if i = 0 then 1 else 0
    mean := fun i => if i = 0 then 1 else 0
    var := fun i => if i = 0 then 1 else 0
    mode := fun _ => 1 }

/-- A serving row with numerical feature 0 and categorical feature 0
missing. -/
def rowWmiss : Row :=
  { num := fun i => if i = 0 then none else some 0
    cat := fun j => if j = 0 then none else some 1 }

/-- C7 witness: a concrete fit over two training rows, then the imputation
law on a batch holding one row with a missing numerical and a missing
categorical field. -/
theorem transform_imputes_missing_witness :
    fit fitRowsW = some stateW ∧
    (transformP ⟨some stateW⟩ [rowWmiss] =
        Except.ok ([rowWmiss].map (transformRow stateW)) ∧
      (∀ i : Fin 5, rowWmiss.num i = none →
        (transformRow stateW rowWmiss).num i =
          if stateW.var i = 0 then 0
          else (((stateW.median i - stateW.mean i : ℚ) : ℝ)) /
            Real.sqrt (stateW.var i)) ∧
      (∀ j : Fin 8, rowWmiss.cat j = none →
        (transformRow stateW rowWmiss).cat j = ((stateW.mode j : ℚ) : ℝ))) := by
  have hfit : fit fitRowsW = some stateW := by
    have h2 : (fit fitRowsW).isSome = true := by decide
    obtain ⟨a, ha⟩ := Option.isSome_iff_exists.mp h2
    have h1 : (fit fitRowsW).getD stateW = stateW := by decide
    rw [ha, Option.getD_some] at h1
    rw [ha, h1]
  exact ⟨hfit,
    transform_imputes_missing fitRowsW stateW hfit [rowWmiss] rowWmiss
      (List.mem_singleton.mpr rfl)⟩

/-- A record whose numerical feature 0 carries `v`, every other numerical
feature 0 and every categorical feature 1. -/
def rowL (v : ℚ) : Row :=
  { num := fun i => if i = 0 then some v else some 0, cat := fun _ => some 1 }

/-- A four-record dataset, baseline variant. -/
def XA1 : List Row := [rowL 0, rowL 0, rowL 0, rowL 0]

/-- The same dataset with only record 2 changed (numerical feature 0 set to
100). -/
def XB1 : List Row := [rowL 0, rowL 0, rowL 100, rowL 0]

/-- The split under test: records 0 and 1 form the training partition,
records 2 and 3 the held-out test partition. -/
def splitC1 : ℕ → Bool := fun k => decide (2 ≤ k)

/-- C1: the orchestration fits the preprocessor on the full dataset before
`train_test_split`, so the learned statistics do not depend only on the
training partition: the two datasets agree on every training-partition row
and differ only in a test-partition row, yet the fitted states differ (the
learned mean of feature 0 is 0 versus 25) - `fit` was applied to rows of
the held-out test split. -/
theorem mainFit_depends_on_test_rows :
    trainPartition splitC1 XA1 = trainPartition splitC1 XB1 ∧
    testPartition splitC1 XA1 ≠ testPartition splitC1 XB1 ∧
    mainFittedState XA1 ≠ mainFittedState XB1 := by
  refine ⟨by decide, by decide, ?_⟩
  intro h
  have h2 : (mainFittedState XA1).getD stateW = (mainFittedState XB1).getD stateW := by
    rw [h]
  exact absurd h2 (by decide)
